import Mathlib

/-!
# tailwindCpp: the token parser and the rendering pipeline

A shallow embedding of `src/tailwind.h`.

* `std::string` is a list of characters (`Str`); `length()`, `substr`, `find`,
  `append`, `back`, `pop_back` are the corresponding list operations.
* `uint32_t modifiers` is a natural number combined with bitwise or / and,
  `uint16_t width` is a natural number produced by a reduction modulo `2 ^ 16`,
  `size_t` subtraction in the truncating branch of the width stage wraps modulo `2 ^ 64`.
* `get_terminal_width()` reads the console; its result is the parameter `term_width`.
* `log_unknown_utility` only writes to `std::cerr` under `TW_DEBUG`; it leaves the
  state alone and is not represented.
* Each `char` field of `BorderChars` is initialised from a literal whose glyph takes three
  bytes in the UTF-8 source: a multi-character literal, an `int`, of which the `char`
  keeps the low byte (`char_literal`). A border cell is therefore one byte, not the glyph.
-/

namespace tw

/-- A `std::string`: a sequence of `char`. -/
abbrev Str := List Char

/-- The escape character `\033`. -/
abbrev ESC : Char := Char.ofNat 27

/-- The line feed `\n`. -/
abbrev NL : Char := Char.ofNat 10

/-! ## Enumerations and the style state -/

/-- ANSI colour codes (`enum class Color : uint8_t`). -/
inductive Color where
  | Black | Red | Green | Yellow | Blue | Magenta | Cyan | White | Default
  deriving DecidableEq, Repr

/-- The numeric value of a `Color` enumerator. -/
def Color.val : Color → Nat
  | .Black => 0
  | .Red => 1
  | .Green => 2
  | .Yellow => 3
  | .Blue => 4
  | .Magenta => 5
  | .Cyan => 6
  | .White => 7
  | .Default => 9

/-- Text modifiers (`enum Modifier : uint32_t`, a bitmask). -/
inductive Modifier where
  | None | Bold | Dim | Underline | Blink | Reverse | Hidden
  deriving DecidableEq, Repr

/-- The mask of a `Modifier` enumerator. -/
def Modifier.val : Modifier → Nat
  | .None => 0
  | .Bold => 1 <<< 0
  | .Dim => 1 <<< 1
  | .Underline => 1 <<< 2
  | .Blink => 1 <<< 3
  | .Reverse => 1 <<< 4
  | .Hidden => 1 <<< 5

/-- Border types. -/
inductive BorderType where
  | None | Single | Double | Rounded
  deriving DecidableEq, Repr

/-- Alignment types. -/
inductive Alignment where
  | Left | Center | Right
  deriving DecidableEq, Repr

/-- Padding levels. -/
inductive Padding where
  | P0 | P1 | P2 | P3 | P4
  deriving DecidableEq, Repr

/-- The numeric value of a `Padding` enumerator. -/
def Padding.val : Padding → Nat
  | .P0 => 0
  | .P1 => 1
  | .P2 => 2
  | .P3 => 3
  | .P4 => 4

/-- Margin levels. -/
inductive Margin where
  | M0 | M1 | M2
  deriving DecidableEq, Repr

/-- The numeric value of a `Margin` enumerator. -/
def Margin.val : Margin → Nat
  | .M0 => 0
  | .M1 => 1
  | .M2 => 2

/-- The central configuration `struct StyleState`, with the member initialisers of the
source as field defaults. -/
structure StyleState where
  text_color : Color := Color.Default
  bg_color : Color := Color.Default
  modifiers : Nat := Modifier.None.val
  padding : Padding := Padding.P0
  margin : Margin := Margin.M0
  border : BorderType := BorderType.None
  alignment : Alignment := Alignment.Left
  width : Nat := 0
  width_full : Bool := false
  deriving DecidableEq, Repr

namespace StyleState

/-- `text_color != Color::Default`. -/
def has_text_color (s : StyleState) : Bool := decide (s.text_color ≠ Color.Default)

/-- `bg_color != Color::Default`. -/
def has_bg_color (s : StyleState) : Bool := decide (s.bg_color ≠ Color.Default)

/-- `border != BorderType::None`. -/
def has_border (s : StyleState) : Bool := decide (s.border ≠ BorderType.None)

/-- `(modifiers & m) != 0`. -/
def has_modifier (s : StyleState) (m : Modifier) : Bool := decide (s.modifiers &&& m.val ≠ 0)

end StyleState

/-! ## Parser -/

namespace Parser

/-- The table `color_map`; `none` is `find(..) == end()`. -/
def color_map (name : Str) : Option Color :=
  if name = "black".toList then some Color.Black
  else if name = "red".toList then some Color.Red
  else if name = "green".toList then some Color.Green
  else if name = "yellow".toList then some Color.Yellow
  else if name = "blue".toList then some Color.Blue
  else if name = "magenta".toList then some Color.Magenta
  else if name = "cyan".toList then some Color.Cyan
  else if name = "white".toList then some Color.White
  else none

/-- The table `padding_map`. -/
def padding_map (token : Str) : Option Padding :=
  if token = "p-0".toList then some Padding.P0
  else if token = "p-1".toList then some Padding.P1
  else if token = "p-2".toList then some Padding.P2
  else if token = "p-3".toList then some Padding.P3
  else if token = "p-4".toList then some Padding.P4
  else none

/-- The table `modifier_map`. -/
def modifier_map (token : Str) : Option Modifier :=
  if token = "bold".toList then some Modifier.Bold
  else if token = "dim".toList then some Modifier.Dim
  else if token = "underline".toList then some Modifier.Underline
  else if token = "blink".toList then some Modifier.Blink
  else if token = "reverse".toList then some Modifier.Reverse
  else if token = "hidden".toList then some Modifier.Hidden
  else none

/-- The function `split(str, delimiter)`: the pieces of `str` between occurrences of
`delimiter`, empty pieces included; always at least one piece. -/
def split (delimiter : Char) : Str → List Str
  | [] => [[]]
  | c :: cs =>
    if c = delimiter then [] :: split delimiter cs
    else
      match split delimiter cs with
      | [] => [[c]]
      | t :: ts => (c :: t) :: ts

/-- The C function `isspace` in the "C" locale. -/
def isspace (c : Char) : Bool :=
  c = ' ' || c = Char.ofNat 9 || c = Char.ofNat 10 || c = Char.ofNat 11 ||
    c = Char.ofNat 12 || c = Char.ofNat 13

/-- The value of a run of decimal digits. -/
def digits_value (ds : Str) : Nat :=
  ds.foldl (fun acc d => 10 * acc + (d.toNat - 48)) 0

/-- The library function `std::stoi(str)` (base 10, `int` of 32 bits): skip leading
white space, read an optional sign, then the longest run of decimal digits; whatever
follows the digits is ignored. `none` stands for a thrown exception:
`std::invalid_argument` when there is no digit, `std::out_of_range` when the value is
not an `int`. -/
def stoi (str : Str) : Option Int :=
  let s1 := str.dropWhile isspace
  let neg : Bool := s1.head? = some '-'
  let s2 := if s1.head? = some '-' ∨ s1.head? = some '+' then s1.tail else s1
  let ds := s2.takeWhile Char.isDigit
  if ds = [] then none
  else
    let v : Int := if neg then - (digits_value ds : Int) else (digits_value ds : Int)
    if v < -2147483648 ∨ 2147483647 < v then none else some v

/-- The conversion `static_cast<uint16_t>(int)`. -/
def to_uint16 (v : Int) : Nat := (v % 65536).toNat

/-- The function `Parser::apply_token`, returning the updated state. -/
def apply_token (token : Str) (state : StyleState) : StyleState :=
  if token.take 5 = "text-".toList then
    match color_map (token.drop 5) with
    | some c => { state with text_color := c }
    | none => state
  else if token.take 3 = "bg-".toList then
    match color_map (token.drop 3) with
    | some c => { state with bg_color := c }
    | none => state
  else if let some p := padding_map token then
    { state with padding := p }
  else if let some m := modifier_map token then
    { state with modifiers := state.modifiers ||| m.val }
  else if token = "border".toList then
    { state with border := BorderType.Single }
  else if token = "border-double".toList then
    { state with border := BorderType.Double }
  else if token = "border-rounded".toList then
    { state with border := BorderType.Rounded }
  else if token = "left".toList then
    { state with alignment := Alignment.Left }
  else if token = "center".toList then
    { state with alignment := Alignment.Center }
  else if token = "right".toList then
    { state with alignment := Alignment.Right }
  else if token = "w-full".toList then
    { state with width_full := true }
  else if token.take 2 = "w-".toList then
    match stoi (token.drop 2) with
    | some v => { state with width := to_uint16 v }
    | none => state
  else state

/-- The function `Parser::parse`: the tokens applied left to right to a fresh state. -/
def parse (utility_str : Str) : StyleState :=
  (split ' ' utility_str).foldl (fun state token => apply_token token state) {}

end Parser

/-! ## Renderer -/

namespace Renderer

/-- The glyphs of a border (`struct BorderChars`). -/
structure BorderChars where
  top_left : Char
  top_right : Char
  bottom_left : Char
  bottom_right : Char
  horizontal : Char
  vertical : Char
  deriving DecidableEq, Repr

/-- The `int` value of a multi-character literal: the bytes of the UTF-8 encoding that the
glyph has in the source file, read as digits in base 256 (`'┌'` is `e2 94 8c`, the value
`0xE2948C`). -/
def multichar_value (glyph : Char) : Nat :=
  (String.utf8EncodeChar glyph).foldl (fun acc b => acc * 256 + b.toNat) 0

/-- The conversion of an `int` to `char`: the low byte is kept. -/
def to_char (v : Nat) : Char := Char.ofNat (v % 2 ^ 8)

/-- A `char` initialised from the literal of a glyph: the last byte of its encoding. -/
def char_literal (glyph : Char) : Char := to_char (multichar_value glyph)

/-- The function `Renderer::get_border_chars`; `Single` shares the `default:` label. The
fields are `char`, so each holds the low byte of its literal. -/
def get_border_chars (type : BorderType) : BorderChars :=
  match type with
  | BorderType.Double =>
    ⟨char_literal '╔', char_literal '╗', char_literal '╚', char_literal '╝',
      char_literal '═', char_literal '║'⟩
  | BorderType.Rounded =>
    ⟨char_literal '╭', char_literal '╮', char_literal '╰', char_literal '╯',
      char_literal '─', char_literal '│'⟩
  | _ =>
    ⟨char_literal '┌', char_literal '┐', char_literal '└', char_literal '┘',
      char_literal '─', char_literal '│'⟩

/-- Stage 1, `Renderer::apply_width`. In the truncating branch `target_width - 3` is
computed on `size_t` and wraps modulo `2 ^ 64`. -/
def apply_width (term_width : Nat) (text : Str) (style : StyleState) : Str :=
  if style.width = 0 ∧ style.width_full = false then text
  else
    let target_width := if style.width_full then term_width else style.width
    if text.length ≤ target_width then
      text ++ List.replicate (target_width - text.length) ' '
    else
      text.take ((target_width + 2 ^ 64 - 3) % 2 ^ 64) ++ "...".toList

/-- Stage 2, `Renderer::apply_padding`. -/
def apply_padding (text : Str) (style : StyleState) : Str :=
  if style.padding = Padding.P0 then text
  else
    let pad_size := style.padding.val
    let pad_str := List.replicate pad_size ' '
    pad_str ++ text ++ pad_str

/-- Stage 3, `Renderer::apply_border`. -/
def apply_border (text : Str) (style : StyleState) : Str :=
  if style.has_border = false then text
  else
    let border_chars := get_border_chars style.border
    let content_width := text.length
    let result : Str := []
    let result := result ++ [border_chars.top_left]
    let result := result ++ List.replicate (content_width + 2) border_chars.horizontal
    let result := result ++ [border_chars.top_right]
    let result := result ++ [NL]
    let result := result ++ [border_chars.vertical]
    let result := result ++ (' ' :: text ++ [' '])
    let result := result ++ [border_chars.vertical]
    let result := result ++ [NL]
    let result := result ++ [border_chars.bottom_left]
    let result := result ++ List.replicate (content_width + 2) border_chars.horizontal
    let result := result ++ [border_chars.bottom_right]
    result

/-- Stage 4, `Renderer::apply_alignment`. -/
def apply_alignment (term_width : Nat) (text : Str) (style : StyleState) : Str :=
  if style.alignment = Alignment.Left ∨ NL ∈ text then text
  else
    let text_width := text.length
    if text_width ≥ term_width then text
    else
      let left_padding :=
        if style.alignment = Alignment.Center then (term_width - text_width) / 2
        else if style.alignment = Alignment.Right then term_width - text_width
        else 0
      List.replicate left_padding ' ' ++ text

/-- Stage 5, `Renderer::apply_margin`. -/
def apply_margin (text : Str) (style : StyleState) : Str :=
  if style.margin = Margin.M0 then text
  else
    let margin_size := style.margin.val
    let margin_str := List.replicate margin_size NL
    margin_str ++ text ++ margin_str

/-- The function `std::to_string` on a non-negative integer: its decimal digits. -/
def to_string (n : Nat) : Str := Nat.toDigits 10 n

/-- The statement `if (cond) result += s;`. -/
def append_if (cond : Bool) (result s : Str) : Str :=
  if cond then result ++ s else result

/-- Stage 6, `Renderer::apply_ansi_styling`. -/
def apply_ansi_styling (text : Str) (style : StyleState) : Str :=
  let result : Str := [ESC, '[']
  let result := append_if (style.has_modifier Modifier.Bold) result "1;".toList
  let result := append_if (style.has_modifier Modifier.Dim) result "2;".toList
  let result := append_if (style.has_modifier Modifier.Underline) result "4;".toList
  let result := append_if (style.has_modifier Modifier.Blink) result "5;".toList
  let result := append_if (style.has_modifier Modifier.Reverse) result "7;".toList
  let result := append_if (style.has_modifier Modifier.Hidden) result "8;".toList
  let result := append_if style.has_text_color result
    (to_string (30 + style.text_color.val) ++ [';'])
  let result := append_if style.has_bg_color result
    (to_string (40 + style.bg_color.val) ++ [';'])
  let result := if result.getLast? = some ';' then result.dropLast else result
  let result := result ++ ['m']
  let result := result ++ text
  let result := result ++ [ESC, '[', '0', 'm']
  result

/-- The pipeline `Renderer::render`: width, padding, border, alignment, margin, ANSI. -/
def render (term_width : Nat) (text : Str) (style : StyleState) : Str :=
  let width_adjusted := apply_width term_width text style
  let padded := apply_padding width_adjusted style
  let bordered := apply_border padded style
  let aligned := apply_alignment term_width bordered style
  let result := apply_margin aligned style
  let result := apply_ansi_styling result style
  result

end Renderer

/-! ## The public API -/

/-- The class `Text`: the raw text and its style. -/
structure Text where
  raw_text : Str
  style : StyleState
  deriving DecidableEq, Repr

namespace Text

/-- The constructor `Text(text)`: the style is default-initialised. -/
def new (text : Str) : Text := ⟨text, {}⟩

/-- The chainable method `Text::tw`: the parsed style is assigned to `style`. -/
def tw (self : Text) (utility_str : Str) : Text :=
  let parsed := Parser.parse utility_str
  { self with style := parsed }

/-- The method `Text::render`. -/
def render (term_width : Nat) (self : Text) : Str :=
  Renderer.render term_width self.raw_text self.style

end Text

/-- The free function `tw(text, utility_str)`. -/
def tw (term_width : Nat) (text : Str) (utility_str : Str) : Str :=
  ((Text.new text).tw utility_str).render term_width

end tw

/-! ## Specification-side definitions -/

namespace tw

open Parser Renderer

/-- The code list of the ANSI stage as the specification words it: the codes of the active
modifiers in the order Bold=1, Dim=2, Underline=4, Blink=5, Reverse=7, Hidden=8, then
`30 + colorIndex` if a text colour is set, then `40 + colorIndex` if a background colour
is set. -/
def ansi_codes (style : StyleState) : List Str :=
  (if style.has_modifier Modifier.Bold then ["1".toList] else []) ++
  (if style.has_modifier Modifier.Dim then ["2".toList] else []) ++
  (if style.has_modifier Modifier.Underline then ["4".toList] else []) ++
  (if style.has_modifier Modifier.Blink then ["5".toList] else []) ++
  (if style.has_modifier Modifier.Reverse then ["7".toList] else []) ++
  (if style.has_modifier Modifier.Hidden then ["8".toList] else []) ++
  (if style.has_text_color then [to_string (30 + style.text_color.val)] else []) ++
  (if style.has_bg_color then [to_string (40 + style.bg_color.val)] else [])

/-- Codes joined by single semicolons, none trailing. -/
def join_semicolon : List Str → Str
  | [] => []
  | [c] => c
  | c :: d :: cs => c ++ ';' :: join_semicolon (d :: cs)

/-- Codes each followed by a semicolon, the way the ANSI stage appends them. -/
def terminated : List Str → Str
  | [] => []
  | c :: cs => c ++ ';' :: terminated cs

/-- The eight colour names of the token language with their colour index. -/
def color_index_table : List (Str × Nat) :=
  [("black".toList, 0), ("red".toList, 1), ("green".toList, 2), ("yellow".toList, 3),
   ("blue".toList, 4), ("magenta".toList, 5), ("cyan".toList, 6), ("white".toList, 7)]

/-- The keyword tokens of the language, matched exactly: `p-0`..`p-4`, the six modifier
names, the three border tokens, the three alignment tokens and `w-full`. -/
def keyword_tokens : List Str :=
  ["p-0".toList, "p-1".toList, "p-2".toList, "p-3".toList, "p-4".toList,
   "bold".toList, "dim".toList, "underline".toList, "blink".toList, "reverse".toList,
   "hidden".toList, "border".toList, "border-double".toList, "border-rounded".toList,
   "left".toList, "center".toList, "right".toList, "w-full".toList]

/-- A token that the specification calls unknown: it is empty, or it is `text-` or `bg-`
followed by something that is not one of the eight colour names, or it matches none of
the keywords and none of the prefixes `text-`, `bg-`, `w-`. -/
def unknown_token (t : Str) : Prop :=
  t = [] ∨
  (t.take 5 = "text-".toList ∧ t.drop 5 ∉ color_index_table.map Prod.fst) ∨
  (t.take 3 = "bg-".toList ∧ t.drop 3 ∉ color_index_table.map Prod.fst) ∨
  (t.take 5 ≠ "text-".toList ∧ t.take 3 ≠ "bg-".toList ∧ t.take 2 ≠ "w-".toList ∧
    t ∉ keyword_tokens)

instance : DecidablePred unknown_token := fun t => by
  unfold unknown_token
  infer_instance

/-- The six modifier tokens with the flag each names. -/
def modifier_table : List (Str × Modifier) :=
  [("bold".toList, Modifier.Bold), ("dim".toList, Modifier.Dim),
   ("underline".toList, Modifier.Underline), ("blink".toList, Modifier.Blink),
   ("reverse".toList, Modifier.Reverse), ("hidden".toList, Modifier.Hidden)]

/-- The mask a token contributes to `modifiers`: that of the modifier it names, else 0. -/
def token_mask (t : Str) : Nat :=
  match modifier_map t with
  | some m => m.val
  | none => 0

/-- The bitwise union of the masks of a list of tokens. -/
def tokens_mask (ts : List Str) : Nat :=
  ts.foldr (fun t acc => token_mask t ||| acc) 0

/-- The top edge of a box around `n` cells of content: top-left corner, the horizontal
glyph `n + 2` times, top-right corner. -/
def box_top (g : BorderChars) (n : Nat) : Str :=
  g.top_left :: List.replicate (n + 2) g.horizontal ++ [g.top_right]

/-- The middle line of a box: vertical glyph, space, content, space, vertical glyph. -/
def box_middle (g : BorderChars) (content : Str) : Str :=
  g.vertical :: ' ' :: content ++ [' ', g.vertical]

/-- The bottom edge of a box around `n` cells of content. -/
def box_bottom (g : BorderChars) (n : Nat) : Str :=
  g.bottom_left :: List.replicate (n + 2) g.horizontal ++ [g.bottom_right]

/-- The three lines of a box joined by newlines, none trailing. -/
def box (g : BorderChars) (content : Str) : Str :=
  box_top g content.length ++ NL :: (box_middle g content ++ NL :: box_bottom g content.length)

/-- The three border tokens with the border type each sets. -/
def border_table : List (Str × BorderType) :=
  [("border".toList, BorderType.Single), ("border-double".toList, BorderType.Double),
   ("border-rounded".toList, BorderType.Rounded)]

/-- The six glyphs `Renderer::get_border_chars` returns for a border type: the four
corners, the horizontal glyph and the vertical glyph. -/
def glyph_set (type : BorderType) : List Char :=
  [(get_border_chars type).top_left, (get_border_chars type).top_right,
   (get_border_chars type).bottom_left, (get_border_chars type).bottom_right,
   (get_border_chars type).horizontal, (get_border_chars type).vertical]

/-- The attributes of a `StyleState`. -/
inductive Field where
  | text_color | bg_color | modifiers | padding | margin | border | alignment | width
  | width_full
  deriving DecidableEq, Repr

/-- The category of a token, by the classification rules in their order of precedence:
the attribute a token of that kind may set; `none` for an empty or unknown token. -/
def token_category (t : Str) : Option Field :=
  if t.take 5 = "text-".toList then some Field.text_color
  else if t.take 3 = "bg-".toList then some Field.bg_color
  else if (padding_map t).isSome then some Field.padding
  else if (modifier_map t).isSome then some Field.modifiers
  else if t = "border".toList ∨ t = "border-double".toList ∨ t = "border-rounded".toList then
    some Field.border
  else if t = "left".toList ∨ t = "center".toList ∨ t = "right".toList then
    some Field.alignment
  else if t = "w-full".toList then some Field.width_full
  else if t.take 2 = "w-".toList then some Field.width
  else none

/-- Two states have the same value in the attribute `f`. -/
def agree_on (f : Field) (a b : StyleState) : Prop :=
  match f with
  | Field.text_color => a.text_color = b.text_color
  | Field.bg_color => a.bg_color = b.bg_color
  | Field.modifiers => a.modifiers = b.modifiers
  | Field.padding => a.padding = b.padding
  | Field.margin => a.margin = b.margin
  | Field.border => a.border = b.border
  | Field.alignment => a.alignment = b.alignment
  | Field.width => a.width = b.width
  | Field.width_full => a.width_full = b.width_full

/-- A string given by the values of its bytes. -/
def bytes (values : List Nat) : Str := values.map Char.ofNat

/-- The reset sequence `ESC[0m`. -/
def reset_seq : Str := [ESC, '[', '0', 'm']

end tw

/-! ## Lemmas on the ANSI stage and on the pipeline -/

namespace tw

open Parser Renderer

theorem terminated_append (A B : List Str) :
    terminated (A ++ B) = terminated A ++ terminated B := by
  induction A with
  | nil => rfl
  | cons a A ih => simp [terminated, ih]

theorem append_if_terminated (c : Bool) (r x : Str) :
    append_if c r (x ++ [';']) = r ++ terminated (if c = true then [x] else []) := by
  cases c <;> simp [terminated, append_if]

theorem pop_terminated (L : List Str) :
    ∀ pre : Str, (L ≠ [] ∨ pre.getLast? ≠ some ';') →
      (if (pre ++ terminated L).getLast? = some ';' then (pre ++ terminated L).dropLast
        else pre ++ terminated L) = pre ++ join_semicolon L := by
  induction L with
  | nil =>
    intro pre h
    rcases h with h | h
    · exact absurd rfl h
    · simp [terminated, join_semicolon, h]
  | cons c cs ih =>
    intro pre _
    cases cs with
    | nil =>
      have e : pre ++ terminated [c] = (pre ++ c) ++ [';'] := by simp [terminated]
      rw [e, List.getLast?_concat, List.dropLast_concat]
      simp [join_semicolon]
    | cons d ds =>
      have h := ih (pre ++ c ++ [';']) (Or.inl (by simp))
      have e : pre ++ terminated (c :: d :: ds) =
          (pre ++ c ++ [';']) ++ terminated (d :: ds) := by
        simp [terminated]
      rw [e, h]
      simp [join_semicolon]

/-- The ANSI stage in closed form. -/
theorem apply_ansi_styling_eq (text : Str) (style : StyleState) :
    apply_ansi_styling text style =
      [ESC, '['] ++ join_semicolon (ansi_codes style) ++ ['m'] ++ text ++ reset_seq := by
  have key : ∀ r : Str, r = [ESC, '['] ++ terminated (ansi_codes style) →
      (if r.getLast? = some ';' then r.dropLast else r) =
        [ESC, '['] ++ join_semicolon (ansi_codes style) := by
    intro r hr
    subst hr
    exact pop_terminated _ _ (Or.inr (by decide))
  unfold apply_ansi_styling
  simp only []
  rw [key]
  · rfl
  · have e1 : ∀ d : Char, [d, ';'] = [d] ++ [';'] := fun _ => rfl
    simp only [ansi_codes, terminated_append, String.toList, e1, append_if_terminated,
      List.append_assoc]

theorem ansi_codes_digits (style : StyleState) :
    ∀ c ∈ ansi_codes style, c ≠ [] ∧ ∀ d ∈ c, d.isDigit = true := by
  intro c hc
  unfold ansi_codes at hc
  simp only [List.mem_append] at hc
  have one : ∀ (b : Bool) (x : Str), c ∈ (if b = true then [x] else []) → c = x := by
    intro b x h
    cases b <;> simp at h
    exact h
  have col : ∀ k : Color, (to_string (30 + k.val) ≠ [] ∧ ∀ d ∈ to_string (30 + k.val),
      d.isDigit = true) ∧ (to_string (40 + k.val) ≠ [] ∧ ∀ d ∈ to_string (40 + k.val),
      d.isDigit = true) := by
    intro k
    cases k <;> decide
  rcases hc with ((((((h | h) | h) | h) | h) | h) | h) | h
  all_goals first
    | (rw [one _ _ h]; decide)
    | (rw [one _ _ h]; exact (col _).1)
    | (rw [one _ _ h]; exact (col _).2)

/-- The free function `tw` is parsing followed by rendering. -/
theorem tw_eq (T : Nat) (text s : Str) : tw T text s = render T text (parse s) := rfl

/-- With no width, padding, border, alignment or margin only the ANSI stage acts. -/
theorem render_plain (T : Nat) (text : Str) (style : StyleState)
    (hw : style.width = 0) (hf : style.width_full = false) (hp : style.padding = Padding.P0)
    (hb : style.border = BorderType.None) (ha : style.alignment = Alignment.Left)
    (hm : style.margin = Margin.M0) :
    render T text style = apply_ansi_styling text style := by
  simp [render, apply_width, apply_padding, apply_border, apply_alignment, apply_margin,
    StyleState.has_border, hw, hf, hp, hb, ha, hm]

end tw

/-! ## The ANSI styling stage and single colour tokens -/

namespace tw

open Parser Renderer

/-- C1: for every text and style the ANSI styling stage returns `ESC[`, the code list,
`m`, the text and `ESC[0m`, where the code list holds the codes of the active modifiers in
the order 1, 2, 4, 5, 7, 8, then `30 + colorIndex` and `40 + colorIndex` for the colours
that are set, joined by single semicolons with none trailing (every code is a non-empty
digit string); with nothing active the result is `ESC[m`, the text, `ESC[0m`; and
`tw("x", "bold underline text-green bg-black")` is `ESC[1;4;32;40mxESC[0m`. -/
theorem apply_ansi_styling_spec (text : Str) (style : StyleState) :
    apply_ansi_styling text style =
        [ESC, '['] ++ join_semicolon (ansi_codes style) ++ ['m'] ++ text ++ [ESC, '[', '0', 'm'] ∧
      (∀ c ∈ ansi_codes style, c ≠ [] ∧ ∀ d ∈ c, d.isDigit = true) ∧
      (ansi_codes style = [] →
        apply_ansi_styling text style = [ESC, '[', 'm'] ++ text ++ [ESC, '[', '0', 'm']) ∧
      (∀ T : Nat, tw T "x".toList "bold underline text-green bg-black".toList =
        ESC :: "[1;4;32;40mx".toList ++ ESC :: "[0m".toList) := by
  refine ⟨apply_ansi_styling_eq text style, ansi_codes_digits style, ?_, ?_⟩
  · intro h
    rw [apply_ansi_styling_eq, h]
    rfl
  · intro T
    have hp : parse "bold underline text-green bg-black".toList =
        { text_color := Color.Green, bg_color := Color.Black, modifiers := 5 } := by decide
    rw [tw_eq, hp, render_plain T _ _ rfl rfl rfl rfl rfl rfl]
    rfl

/-- C1 at the default style and the text `x`: the degenerate sequence `ESC[mxESC[0m`. -/
theorem apply_ansi_styling_spec_witness :
    ansi_codes {} = [] ∧
      apply_ansi_styling ['x'] {} = [ESC, '[', 'm'] ++ ['x'] ++ [ESC, '[', '0', 'm'] :=
  ⟨by decide, (apply_ansi_styling_spec ['x'] {}).2.2.1 (by decide)⟩

/-- C2: for every text and each of the eight colour names with index `i`,
`tw(text, "text-<name>")` is `ESC[`, the decimal digits of `30 + i`, `m`, the text and
`ESC[0m`, with nothing else; and `tw("Red text", "text-red")` is `ESC[31mRed textESC[0m`. -/
theorem tw_text_color (T : Nat) (text name : Str) (i : Nat)
    (h : (name, i) ∈ color_index_table) :
    tw T text ("text-".toList ++ name) =
        [ESC, '['] ++ to_string (30 + i) ++ ['m'] ++ text ++ [ESC, '[', '0', 'm'] ∧
      tw T "Red text".toList "text-red".toList =
        ESC :: "[31mRed text".toList ++ ESC :: "[0m".toList := by
  have red : parse "text-red".toList = { text_color := Color.Red } := by decide
  constructor
  · simp only [color_index_table, List.mem_cons, Prod.mk.injEq, List.mem_singleton,
      List.not_mem_nil, or_false] at h
    rcases h with h | h | h | h | h | h | h | h
    all_goals
      obtain ⟨hn, hi⟩ := h
      subst hn hi
      rw [tw_eq]
    · have hp : parse ("text-".toList ++ "black".toList) = { text_color := Color.Black } := by
        decide
      rw [hp, render_plain T _ _ rfl rfl rfl rfl rfl rfl]; rfl
    · have hp : parse ("text-".toList ++ "red".toList) = { text_color := Color.Red } := by
        decide
      rw [hp, render_plain T _ _ rfl rfl rfl rfl rfl rfl]; rfl
    · have hp : parse ("text-".toList ++ "green".toList) = { text_color := Color.Green } := by
        decide
      rw [hp, render_plain T _ _ rfl rfl rfl rfl rfl rfl]; rfl
    · have hp : parse ("text-".toList ++ "yellow".toList) = { text_color := Color.Yellow } := by
        decide
      rw [hp, render_plain T _ _ rfl rfl rfl rfl rfl rfl]; rfl
    · have hp : parse ("text-".toList ++ "blue".toList) = { text_color := Color.Blue } := by
        decide
      rw [hp, render_plain T _ _ rfl rfl rfl rfl rfl rfl]; rfl
    · have hp : parse ("text-".toList ++ "magenta".toList) = { text_color := Color.Magenta } := by
        decide
      rw [hp, render_plain T _ _ rfl rfl rfl rfl rfl rfl]; rfl
    · have hp : parse ("text-".toList ++ "cyan".toList) = { text_color := Color.Cyan } := by
        decide
      rw [hp, render_plain T _ _ rfl rfl rfl rfl rfl rfl]; rfl
    · have hp : parse ("text-".toList ++ "white".toList) = { text_color := Color.White } := by
        decide
      rw [hp, render_plain T _ _ rfl rfl rfl rfl rfl rfl]; rfl
  · rw [tw_eq, red, render_plain T _ _ rfl rfl rfl rfl rfl rfl]
    rfl

/-- C2 at the colour `blue` (index 4), the text `hi` and a terminal of 80 columns. -/
theorem tw_text_color_witness :
    ("blue".toList, 4) ∈ color_index_table ∧
      tw 80 "hi".toList "text-blue".toList = ESC :: "[34mhi".toList ++ ESC :: "[0m".toList :=
  ⟨by decide, (tw_text_color 80 "hi".toList "blue".toList 4 (by decide)).1⟩

end tw

/-! ## Unknown tokens -/

namespace tw

open Parser Renderer

theorem color_map_none (r : Str) (h : r ∉ color_index_table.map Prod.fst) :
    color_map r = none := by
  simp [color_index_table] at h
  simp [color_map, h]

theorem apply_token_unknown (t : Str) (state : StyleState) (h : unknown_token t) :
    apply_token t state = state := by
  rcases h with h | ⟨h1, h2⟩ | ⟨h1, h2⟩ | ⟨h1, h2, h3, h4⟩
  · subst h
    rfl
  · have h1n : t.take 5 = ['t', 'e', 'x', 't', '-'] := h1
    simp [apply_token, h1n, color_map_none _ h2]
  · have h5 : t.take 5 ≠ "text-".toList := by
      intro h5
      have e : (t.take 5).take 3 = t.take 3 := by simp [List.take_take]
      rw [h5, h1] at e
      exact absurd e (by decide)
    have h5n : ¬ t.take 5 = ['t', 'e', 'x', 't', '-'] := h5
    have h1n : t.take 3 = ['b', 'g', '-'] := h1
    simp [apply_token, h5n, h1n, color_map_none _ h2]
  · simp [keyword_tokens] at h4
    simp at h1 h2 h3
    simp [apply_token, h1, h2, h3, padding_map, modifier_map, h4]

theorem foldl_unknown (ts : List Str) (state : StyleState) (h : ∀ t ∈ ts, unknown_token t) :
    ts.foldl (fun state token => apply_token token state) state = state := by
  induction ts generalizing state with
  | nil => rfl
  | cons t ts ih =>
    rw [List.foldl_cons, apply_token_unknown t state (h t (List.mem_cons_self _ _))]
    exact ih state (fun u hu => h u (List.mem_cons_of_mem _ hu))

theorem split_spaces (n : Nat) : split ' ' (List.replicate n ' ') = List.replicate (n + 1) [] := by
  induction n with
  | zero => rfl
  | succ n ih => simp [List.replicate_succ, split, ih]

/-- C3: unknown tokens are no-ops. For every text and every token string all of whose
space-separated tokens are unknown (empty, `text-`/`bg-` with something that is not a
colour name, or none of the recognised keywords and prefixes), `Parser::parse` gives the
default state and `tw(text, s) = tw(text, "")`; the empty string, strings of spaces only
and `BOLD` are such strings, and `tw("ok", "not-a-real-style") = tw("ok", "")`. -/
theorem unknown_tokens_noop :
    (∀ (T : Nat) (text s : Str), (∀ t ∈ split ' ' s, unknown_token t) →
        parse s = {} ∧ tw T text s = tw T text []) ∧
      (∀ n : Nat, ∀ t ∈ split ' ' (List.replicate n ' '), unknown_token t) ∧
      (∀ t ∈ split ' ' "BOLD".toList, unknown_token t) ∧
      (∀ T : Nat, tw T "ok".toList "not-a-real-style".toList = tw T "ok".toList []) := by
  have main : ∀ s : Str, (∀ t ∈ split ' ' s, unknown_token t) → parse s = {} := by
    intro s h
    exact foldl_unknown _ _ h
  refine ⟨?_, ?_, by decide, ?_⟩
  · intro T text s h
    refine ⟨main s h, ?_⟩
    rw [tw_eq, tw_eq, main s h]
    rfl
  · intro n t ht
    rw [split_spaces] at ht
    rw [List.eq_of_mem_replicate ht]
    exact Or.inl rfl
  · intro T
    rw [tw_eq, tw_eq, main _ (by decide)]
    rfl

/-- C3 at the token string `not-a-real-style completely-fake text-purple`. -/
theorem unknown_tokens_noop_witness :
    (∀ t ∈ split ' ' "not-a-real-style completely-fake text-purple".toList, unknown_token t) ∧
      parse "not-a-real-style completely-fake text-purple".toList = {} ∧
      tw 80 "ok".toList "not-a-real-style completely-fake text-purple".toList =
        tw 80 "ok".toList [] :=
  ⟨by decide, unknown_tokens_noop.1 80 "ok".toList
    "not-a-real-style completely-fake text-purple".toList (by decide)⟩

end tw

/-! ## Token order: later tokens win, modifiers accumulate -/

namespace tw

open Parser Renderer

theorem split_ne_nil (d : Char) (s : Str) : split d s ≠ [] := by
  cases s with
  | nil => simp [split]
  | cons c cs =>
    unfold split
    split
    · simp
    · split <;> simp

theorem split_append_delim (d : Char) (a b : Str) :
    split d (a ++ d :: b) = split d a ++ split d b := by
  induction a with
  | nil => simp [split]
  | cons c cs ih =>
    by_cases hc : c = d
    · simp [split, hc, ih]
    · have hne := split_ne_nil d cs
      cases hs : split d cs with
      | nil => exact absurd hs hne
      | cons t ts =>
        rw [hs] at ih
        simp [split, hc, ih, hs]

theorem split_no_delim (d : Char) (t : Str) (h : d ∉ t) : split d t = [t] := by
  induction t with
  | nil => rfl
  | cons c cs ih =>
    have hc : ¬ c = d := fun e => h (by simp [e])
    have hcs : d ∉ cs := fun e => h (List.mem_cons_of_mem _ e)
    simp [split, hc, ih hcs]

/-- Parsing is a left fold: tokens of two strings joined by a space are applied in order. -/
theorem parse_append (a b : Str) :
    parse (a ++ ' ' :: b) =
      (split ' ' b).foldl (fun state token => apply_token token state) (parse a) := by
  unfold parse
  rw [split_append_delim, List.foldl_append]

/-- A final token without a space is applied to the state parsed from what precedes it. -/
theorem parse_snoc (s t : Str) (h : ' ' ∉ t) :
    parse (s ++ ' ' :: t) = apply_token t (parse s) := by
  rw [parse_append, split_no_delim _ _ h]
  rfl

/-- C4: later token wins. For every token string `s` and every recognised single-valued
token `t` (`text-<color>`, `bg-<color>`, `p-0`..`p-4`, `border`, `border-double`,
`border-rounded`, `left`, `center`, `right`), the field that `t` sets has the value of `t`
in `Parser::parse(s + " " + t)`, whatever `s` contains; and
`parse("text-red text-blue").text_color` is `Blue`. -/
theorem later_token_wins (s : Str) :
    (∀ (name : Str) (i : Nat), (name, i) ∈ color_index_table →
        (parse (s ++ ' ' :: ("text-".toList ++ name))).text_color.val = i) ∧
      (∀ (name : Str) (i : Nat), (name, i) ∈ color_index_table →
        (parse (s ++ ' ' :: ("bg-".toList ++ name))).bg_color.val = i) ∧
      (∀ k : Nat, k ≤ 4 →
        (parse (s ++ ' ' :: ("p-".toList ++ to_string k))).padding.val = k) ∧
      (parse (s ++ ' ' :: "border".toList)).border = BorderType.Single ∧
      (parse (s ++ ' ' :: "border-double".toList)).border = BorderType.Double ∧
      (parse (s ++ ' ' :: "border-rounded".toList)).border = BorderType.Rounded ∧
      (parse (s ++ ' ' :: "left".toList)).alignment = Alignment.Left ∧
      (parse (s ++ ' ' :: "center".toList)).alignment = Alignment.Center ∧
      (parse (s ++ ' ' :: "right".toList)).alignment = Alignment.Right ∧
      (parse "text-red text-blue".toList).text_color = Color.Blue := by
  refine ⟨?_, ?_, ?_, ?_, ?_, ?_, ?_, ?_, ?_, by decide⟩
  · intro name i h
    simp only [color_index_table, List.mem_cons, Prod.mk.injEq, List.not_mem_nil,
      or_false] at h
    rcases h with h | h | h | h | h | h | h | h
    all_goals
      obtain ⟨hn, hi⟩ := h
      subst hn hi
      rw [parse_snoc _ _ (by decide)]
      rfl
  · intro name i h
    simp only [color_index_table, List.mem_cons, Prod.mk.injEq, List.not_mem_nil,
      or_false] at h
    rcases h with h | h | h | h | h | h | h | h
    all_goals
      obtain ⟨hn, hi⟩ := h
      subst hn hi
      rw [parse_snoc _ _ (by decide)]
      rfl
  · intro k hk
    have hk5 : k = 0 ∨ k = 1 ∨ k = 2 ∨ k = 3 ∨ k = 4 := by omega
    rcases hk5 with h | h | h | h | h
    all_goals
      subst h
      rw [parse_snoc _ _ (by decide)]
      rfl
  all_goals
    rw [parse_snoc _ _ (by decide)]
    rfl

/-- C4 at `s = "text-red bg-white p-3 border center"` followed by `text-blue`. -/
theorem later_token_wins_witness :
    ("blue".toList, 4) ∈ color_index_table ∧
      (parse ("text-red bg-white p-3 border center".toList ++
        ' ' :: ("text-".toList ++ "blue".toList))).text_color.val = 4 :=
  ⟨by decide, ((later_token_wins "text-red bg-white p-3 border center".toList).1
    "blue".toList 4 (by decide))⟩

end tw

namespace tw

open Parser Renderer

theorem or_eq_zero_iff (x y : Nat) : x ||| y = 0 ↔ x = 0 ∧ y = 0 := by
  constructor
  · intro h
    have hb : ∀ i, (x.testBit i || y.testBit i) = false := by
      intro i
      rw [← Nat.testBit_or, h, Nat.zero_testBit]
    constructor
    · apply Nat.eq_of_testBit_eq
      intro i
      have := hb i
      rw [Nat.zero_testBit]
      cases hx : x.testBit i <;> simp_all
    · apply Nat.eq_of_testBit_eq
      intro i
      have := hb i
      rw [Nat.zero_testBit]
      cases hy : y.testBit i <;> simp_all
  · rintro ⟨rfl, rfl⟩
    rfl

theorem apply_token_modifier (t : Str) (state : StyleState)
    (h : t ∈ modifier_table.map Prod.fst) :
    apply_token t state = { state with modifiers := state.modifiers ||| token_mask t } := by
  simp only [modifier_table, List.map_cons, List.map_nil, List.mem_cons, List.not_mem_nil,
    or_false] at h
  rcases h with h | h | h | h | h | h <;> subst h <;> rfl

theorem token_mask_flag (t : Str) (m : Modifier) (h : t ∈ modifier_table.map Prod.fst) :
    token_mask t &&& m.val ≠ 0 ↔ (t, m) ∈ modifier_table := by
  simp only [modifier_table, List.map_cons, List.map_nil, List.mem_cons, List.not_mem_nil,
    or_false] at h
  rcases h with h | h | h | h | h | h <;> subst h <;> cases m <;> decide

theorem foldl_modifiers (ts : List Str) (h : ∀ t ∈ ts, t ∈ modifier_table.map Prod.fst) :
    ∀ state : StyleState,
      ts.foldl (fun state token => apply_token token state) state =
        { state with modifiers := state.modifiers ||| tokens_mask ts } := by
  induction ts with
  | nil =>
    intro state
    simp [tokens_mask]
  | cons t ts ih =>
    intro state
    rw [List.foldl_cons, apply_token_modifier t state (h t (List.mem_cons_self _ _)),
      ih (fun u hu => h u (List.mem_cons_of_mem _ hu))]
    simp [tokens_mask, Nat.or_assoc]

theorem tokens_mask_append (A B : List Str) :
    tokens_mask (A ++ B) = tokens_mask A ||| tokens_mask B := by
  induction A with
  | nil => simp [tokens_mask]
  | cons a A ih =>
    have e : tokens_mask (a :: (A ++ B)) = token_mask a ||| tokens_mask (A ++ B) := rfl
    have e2 : tokens_mask (a :: A) = token_mask a ||| tokens_mask A := rfl
    rw [List.cons_append, e, e2, ih, Nat.or_assoc]

theorem tokens_mask_flag (ts : List Str) (m : Modifier)
    (h : ∀ t ∈ ts, t ∈ modifier_table.map Prod.fst) :
    tokens_mask ts &&& m.val ≠ 0 ↔ ∃ t ∈ ts, (t, m) ∈ modifier_table := by
  induction ts with
  | nil => simp [tokens_mask]
  | cons t ts ih =>
    have e : tokens_mask (t :: ts) = token_mask t ||| tokens_mask ts := rfl
    have ht := token_mask_flag t m (h t (List.mem_cons_self _ _))
    have hts := ih (fun u hu => h u (List.mem_cons_of_mem _ hu))
    rw [e, Nat.and_distrib_right, Ne, or_eq_zero_iff, not_and_or, List.exists_mem_cons_iff]
    exact or_congr ht hts

/-- The state parsed from a string of modifier tokens only. -/
theorem parse_modifiers (s : Str) (h : ∀ t ∈ split ' ' s, t ∈ modifier_table.map Prod.fst) :
    parse s = { modifiers := tokens_mask (split ' ' s) } := by
  unfold parse
  rw [foldl_modifiers _ h]
  simp [Modifier.val]

/-- C5: modifier tokens accumulate and commute. For token strings `a` and `b` made only of
modifier tokens, `parse(a + " " + b) = parse(b + " " + a)`, a flag is set in the result
exactly when a token of `a` or of `b` names it, and every other field is default; and
`parse("bold underline") = parse("underline bold")` with Bold and Underline set. -/
theorem modifiers_accumulate_commute (a b : Str)
    (ha : ∀ t ∈ split ' ' a, t ∈ modifier_table.map Prod.fst)
    (hb : ∀ t ∈ split ' ' b, t ∈ modifier_table.map Prod.fst) :
    parse (a ++ ' ' :: b) = parse (b ++ ' ' :: a) ∧
      (∀ m : Modifier, (parse (a ++ ' ' :: b)).has_modifier m = true ↔
        ∃ t ∈ split ' ' a ++ split ' ' b, (t, m) ∈ modifier_table) ∧
      parse (a ++ ' ' :: b) = { modifiers := (parse (a ++ ' ' :: b)).modifiers } ∧
      (parse "bold underline".toList = parse "underline bold".toList ∧
        (parse "bold underline".toList).has_modifier Modifier.Bold = true ∧
        (parse "bold underline".toList).has_modifier Modifier.Underline = true) := by
  have hab : ∀ t ∈ split ' ' (a ++ ' ' :: b), t ∈ modifier_table.map Prod.fst := by
    intro t ht
    rw [split_append_delim, List.mem_append] at ht
    exact ht.elim (ha t) (hb t)
  have hba : ∀ t ∈ split ' ' (b ++ ' ' :: a), t ∈ modifier_table.map Prod.fst := by
    intro t ht
    rw [split_append_delim, List.mem_append] at ht
    exact ht.elim (hb t) (ha t)
  have hsp : ∀ t ∈ split ' ' a ++ split ' ' b, t ∈ modifier_table.map Prod.fst := by
    intro t ht
    rw [List.mem_append] at ht
    exact ht.elim (ha t) (hb t)
  have e1 := parse_modifiers _ hab
  have e2 := parse_modifiers _ hba
  rw [split_append_delim] at e1 e2
  refine ⟨?_, ?_, ?_, by decide⟩
  · rw [e1, e2, tokens_mask_append, tokens_mask_append, Nat.or_comm]
  · intro m
    rw [e1]
    simp only [StyleState.has_modifier, decide_eq_true_eq]
    exact tokens_mask_flag _ m hsp
  · rw [e1]

/-- C5 at `a = "bold dim"` and `b = "underline bold"`. -/
theorem modifiers_accumulate_commute_witness :
    (∀ t ∈ split ' ' "bold dim".toList, t ∈ modifier_table.map Prod.fst) ∧
      (∀ t ∈ split ' ' "underline bold".toList, t ∈ modifier_table.map Prod.fst) ∧
      parse ("bold dim".toList ++ ' ' :: "underline bold".toList) =
        parse ("underline bold".toList ++ ' ' :: "bold dim".toList) :=
  ⟨by decide, by decide,
    (modifiers_accumulate_commute "bold dim".toList "underline bold".toList
      (by decide) (by decide)).1⟩

end tw

/-! ## The width stage -/

namespace tw

open Parser Renderer

/-- The wrapped `target_width - 3` is the plain difference when `3 ≤ target_width`. -/
theorem size_sub_three (W : Nat) (h3 : 3 ≤ W) (hW : W < 2 ^ 16) :
    (W + 2 ^ 64 - 3) % 2 ^ 64 = W - 3 := by
  have e : W + 2 ^ 64 - 3 = (W - 3) + 2 ^ 64 := by omega
  rw [e, Nat.add_mod_right, Nat.mod_eq_of_lt]
  have : (2 : Nat) ^ 16 < 2 ^ 64 := by decide
  omega

/-- The padding branch of the width stage. -/
theorem apply_width_pad (T : Nat) (text : Str) (style : StyleState)
    (hf : style.width_full = false) (hn : text.length ≤ style.width) :
    apply_width T text style = text ++ List.replicate (style.width - text.length) ' ' := by
  unfold apply_width
  by_cases h0 : style.width = 0
  · have hl : text.length = 0 := by omega
    simp [h0, hf, hl]
  · simp [h0, hf, hn]

/-- The truncating branch of the width stage, for a width of at least 3. -/
theorem apply_width_truncate (T : Nat) (text : Str) (style : StyleState)
    (hf : style.width_full = false) (hW : style.width < 2 ^ 16) (h3 : 3 ≤ style.width)
    (hn : style.width < text.length) :
    apply_width T text style = text.take (style.width - 3) ++ "...".toList := by
  unfold apply_width
  have h0 : ¬ style.width = 0 := by omega
  have hle : ¬ text.length ≤ style.width := by omega
  simp only [h0, hf, hle, false_and, if_false, Bool.false_eq_true]
  rw [size_sub_three _ h3 hW]

/-- C6: the width stage with an explicit width `W` (a `uint16_t`) and no full-width flag.
For a text of length `n ≤ W` the output is the text followed by `W - n` spaces and has
length `W`; for `n > W ≥ 3` the output has length `W`, ends with `...`, and its first
`W - 3` characters are the first `W - 3` characters of the text. -/
theorem apply_width_explicit (T : Nat) (text : Str) (style : StyleState)
    (hf : style.width_full = false) (hW : style.width < 2 ^ 16) :
    (text.length ≤ style.width →
        apply_width T text style = text ++ List.replicate (style.width - text.length) ' ' ∧
        (apply_width T text style).length = style.width) ∧
      (3 ≤ style.width → style.width < text.length →
        (apply_width T text style).length = style.width ∧
        "...".toList <:+ apply_width T text style ∧
        (apply_width T text style).take (style.width - 3) = text.take (style.width - 3)) := by
  constructor
  · intro hn
    rw [apply_width_pad T text style hf hn]
    refine ⟨rfl, ?_⟩
    simp only [List.length_append, List.length_replicate]
    omega
  · intro h3 hn
    rw [apply_width_truncate T text style hf hW h3 hn]
    refine ⟨?_, List.suffix_append _ _, ?_⟩
    · simp only [List.length_append, List.length_take, String.toList]
      have : ['.', '.', '.'].length = 3 := rfl
      simp only [List.length_cons, List.length_nil]
      omega
    · rw [List.take_append_of_le_length (by simp [List.length_take]; omega)]
      simp [List.take_take]

/-- C6 at width 5: `ab` is padded to `ab   `, `abcdefgh` is cut to `ab...`. -/
theorem apply_width_explicit_witness :
    apply_width 80 "ab".toList { width := 5 } = "ab   ".toList ∧
      (apply_width 80 "abcdefgh".toList { width := 5 }).length = 5 ∧
      "...".toList <:+ apply_width 80 "abcdefgh".toList { width := 5 } :=
  ⟨((apply_width_explicit 80 "ab".toList { width := 5 } rfl (by decide)).1 (by decide)).1,
    ((apply_width_explicit 80 "abcdefgh".toList { width := 5 } rfl (by decide)).2
      (by decide) (by decide)).1,
    ((apply_width_explicit 80 "abcdefgh".toList { width := 5 } rfl (by decide)).2
      (by decide) (by decide)).2.1⟩

end tw

/-! ## The border stage -/

namespace tw

open Parser Renderer

theorem glyphs_ne_newline (b : BorderType) :
    (get_border_chars b).top_left ≠ NL ∧ (get_border_chars b).top_right ≠ NL ∧
      (get_border_chars b).bottom_left ≠ NL ∧ (get_border_chars b).bottom_right ≠ NL ∧
      (get_border_chars b).horizontal ≠ NL ∧ (get_border_chars b).vertical ≠ NL := by
  cases b <;> decide

/-- The border stage builds the box. -/
theorem apply_border_eq (text : Str) (style : StyleState) (hb : style.border ≠ BorderType.None) :
    apply_border text style = box (get_border_chars style.border) text := by
  simp [apply_border, StyleState.has_border, hb, box, box_top, box_middle, box_bottom]

theorem box_lines (g : BorderChars) (content : Str) (hc : NL ∉ content)
    (h1 : g.top_left ≠ NL) (h2 : g.top_right ≠ NL) (h3 : g.bottom_left ≠ NL)
    (h4 : g.bottom_right ≠ NL) (h5 : g.horizontal ≠ NL) (h6 : g.vertical ≠ NL) :
    NL ∉ box_top g content.length ∧ NL ∉ box_middle g content ∧
      NL ∉ box_bottom g content.length := by
  have hs : NL ≠ ' ' := by decide
  refine ⟨?_, ?_, ?_⟩
  · simp [box_top, Ne.symm h1, Ne.symm h2, Ne.symm h5]
  · simp [box_middle, Ne.symm h6, hs, hc]
  · simp [box_bottom, Ne.symm h3, Ne.symm h4, Ne.symm h5]

/-- The box splits at its newlines into its three lines. -/
theorem split_box (b : BorderType) (content : Str) (hc : NL ∉ content) :
    split NL (box (get_border_chars b) content) =
      [box_top (get_border_chars b) content.length, box_middle (get_border_chars b) content,
       box_bottom (get_border_chars b) content.length] := by
  obtain ⟨h1, h2, h3, h4, h5, h6⟩ := glyphs_ne_newline b
  obtain ⟨ht, hm, hbt⟩ := box_lines _ content hc h1 h2 h3 h4 h5 h6
  unfold box
  rw [split_append_delim, split_append_delim, split_no_delim _ _ ht, split_no_delim _ _ hm,
    split_no_delim _ _ hbt]
  rfl

/-- C7: the border stage. For a text without a newline and a border type other than None
the output is exactly three lines (two newline characters, none trailing): top-left
corner, `len(text) + 2` horizontal glyphs, top-right corner; vertical glyph, space, text,
space, vertical glyph; bottom-left corner, `len(text) + 2` horizontal glyphs, bottom-right
corner; each line has `len(text) + 4` glyphs. The text `hi` with a Single border is the
example, every glyph being the byte that its `char` field holds (`8c 90 94 98` for the
corners, `80` horizontal, `82` vertical). -/
theorem apply_border_three_lines (text : Str) (style : StyleState) (hnl : NL ∉ text)
    (hb : style.border ≠ BorderType.None) :
    apply_border text style =
        box_top (get_border_chars style.border) text.length ++ NL ::
          (box_middle (get_border_chars style.border) text ++ NL ::
            box_bottom (get_border_chars style.border) text.length) ∧
      split NL (apply_border text style) =
        [box_top (get_border_chars style.border) text.length,
         box_middle (get_border_chars style.border) text,
         box_bottom (get_border_chars style.border) text.length] ∧
      (apply_border text style).count NL = 2 ∧
      (apply_border text style).getLast? ≠ some NL ∧
      (box_top (get_border_chars style.border) text.length).length = text.length + 4 ∧
      (box_middle (get_border_chars style.border) text).length = text.length + 4 ∧
      (box_bottom (get_border_chars style.border) text.length).length = text.length + 4 ∧
      apply_border "hi".toList { border := BorderType.Single } =
        bytes [0x8c, 0x80, 0x80, 0x80, 0x80, 0x90] ++ NL ::
          (bytes [0x82] ++ " hi ".toList ++ bytes [0x82] ++ NL ::
            bytes [0x94, 0x80, 0x80, 0x80, 0x80, 0x98]) := by
  obtain ⟨h1, h2, h3, h4, h5, h6⟩ := glyphs_ne_newline style.border
  obtain ⟨ht, hm, hbt⟩ := box_lines _ text hnl h1 h2 h3 h4 h5 h6
  rw [apply_border_eq text style hb]
  refine ⟨rfl, ?_, ?_, ?_, ?_, ?_, ?_, by decide⟩
  · exact split_box style.border text hnl
  · unfold box
    rw [List.count_append, List.count_cons, List.count_append, List.count_cons,
      List.count_eq_zero.mpr ht, List.count_eq_zero.mpr hm, List.count_eq_zero.mpr hbt]
    simp
  · have e : box (get_border_chars style.border) text =
        (box_top (get_border_chars style.border) text.length ++ NL ::
          (box_middle (get_border_chars style.border) text ++ NL ::
            (get_border_chars style.border).bottom_left ::
              List.replicate (text.length + 2) (get_border_chars style.border).horizontal)) ++
          [(get_border_chars style.border).bottom_right] := by
      simp [box, box_bottom]
    rw [e, List.getLast?_concat]
    intro e
    exact h4 (Option.some.inj e)
  · simp [box_top]
  · simp [box_middle]
  · simp [box_bottom]

/-- C7 at the text `hi` and a Double border, whose stored bytes are `94 97 9a 9d` for the
corners, `90` horizontal and `91` vertical. -/
theorem apply_border_three_lines_witness :
    NL ∉ "hi".toList ∧ BorderType.Double ≠ BorderType.None ∧
      split NL (apply_border "hi".toList { border := BorderType.Double }) =
        [bytes [0x94, 0x90, 0x90, 0x90, 0x90, 0x97],
         bytes [0x91] ++ " hi ".toList ++ bytes [0x91],
         bytes [0x9a, 0x90, 0x90, 0x90, 0x90, 0x9d]] :=
  ⟨by decide, by decide,
    (apply_border_three_lines "hi".toList { border := BorderType.Double }
      (by decide) (by decide)).2.1⟩

end tw

/-! ## Padding inside a border -/

namespace tw

open Parser Renderer

/-- The padding stage at a non-zero level. -/
theorem apply_padding_eq (text : Str) (style : StyleState) (hp : style.padding ≠ Padding.P0) :
    apply_padding text style =
      List.replicate style.padding.val ' ' ++ text ++ List.replicate style.padding.val ' ' := by
  simp [apply_padding, hp]

/-- A bordered, padded text with no width, alignment, margin, modifier or colour. -/
theorem render_box_padded (T : Nat) (text : Str) (style : StyleState)
    (hw : style.width = 0) (hf : style.width_full = false)
    (ha : style.alignment = Alignment.Left) (hm : style.margin = Margin.M0)
    (hb : style.border ≠ BorderType.None) (hp : style.padding ≠ Padding.P0)
    (hc : ansi_codes style = []) :
    render T text style =
      [ESC, '[', 'm'] ++ box (get_border_chars style.border)
        (List.replicate style.padding.val ' ' ++ text ++ List.replicate style.padding.val ' ')
        ++ reset_seq := by
  have h1 : apply_width T text style = text := by simp [apply_width, hw, hf]
  have h4 : ∀ t : Str, apply_alignment T t style = t := by
    intro t
    simp [apply_alignment, ha]
  have h5 : ∀ t : Str, apply_margin t style = t := by
    intro t
    simp [apply_margin, hm]
  unfold render
  simp only [h1, h4, h5]
  rw [apply_ansi_styling_eq, hc, apply_border_eq _ _ hb, apply_padding_eq _ _ hp]
  rfl

/-- What a border token and a padding token parse to, in either order. -/
theorem parse_border_padding (btok : Str) (b : BorderType) (k : Nat)
    (hb : (btok, b) ∈ border_table) (hk : 1 ≤ k ∧ k ≤ 4) :
    parse (btok ++ ' ' :: ("p-".toList ++ to_string k)) =
        parse ("p-".toList ++ to_string k ++ ' ' :: btok) ∧
      (parse (btok ++ ' ' :: ("p-".toList ++ to_string k))).width = 0 ∧
      (parse (btok ++ ' ' :: ("p-".toList ++ to_string k))).width_full = false ∧
      (parse (btok ++ ' ' :: ("p-".toList ++ to_string k))).alignment = Alignment.Left ∧
      (parse (btok ++ ' ' :: ("p-".toList ++ to_string k))).margin = Margin.M0 ∧
      (parse (btok ++ ' ' :: ("p-".toList ++ to_string k))).border = b ∧
      b ≠ BorderType.None ∧
      (parse (btok ++ ' ' :: ("p-".toList ++ to_string k))).padding.val = k ∧
      (parse (btok ++ ' ' :: ("p-".toList ++ to_string k))).padding ≠ Padding.P0 ∧
      ansi_codes (parse (btok ++ ' ' :: ("p-".toList ++ to_string k))) = [] := by
  obtain ⟨hk1, hk4⟩ := hk
  have hk' : k = 1 ∨ k = 2 ∨ k = 3 ∨ k = 4 := by omega
  simp only [border_table, List.mem_cons, Prod.mk.injEq, List.not_mem_nil, or_false] at hb
  rcases hb with ⟨h1, h2⟩ | ⟨h1, h2⟩ | ⟨h1, h2⟩ <;> subst h1 h2 <;>
    rcases hk' with h | h | h | h <;> subst h <;> decide

theorem replicate_space_cons (k : Nat) (r : Str) :
    List.replicate k ' ' ++ ' ' :: r = ' ' :: (List.replicate k ' ' ++ r) := by
  induction k with
  | zero => rfl
  | succ k ih =>
    rw [List.replicate_succ, List.cons_append, ih, List.cons_append]

/-- C8: padding is applied on the same line and before the border. For a text without a
newline, a padding level `k` in 1..4 and a border token, `tw(text, "<border> p-<k>")` is
one ANSI sequence `ESC[m` .. `ESC[0m` around a three-line box whose middle line is
vertical glyph, `k + 1` spaces, text, `k + 1` spaces, vertical glyph and whose top and
bottom edges have `len(text) + 2k + 2` horizontal glyphs; the token order
`"p-<k> <border>"` gives the same result. -/
theorem tw_border_padding (T : Nat) (text btok : Str) (b : BorderType) (k : Nat)
    (hnl : NL ∉ text) (hk : 1 ≤ k ∧ k ≤ 4) (hb : (btok, b) ∈ border_table) :
    tw T text (btok ++ ' ' :: ("p-".toList ++ to_string k)) =
        [ESC, '[', 'm'] ++
          ((get_border_chars b).top_left ::
              List.replicate (text.length + 2 * k + 2) (get_border_chars b).horizontal ++
              [(get_border_chars b).top_right]) ++
          NL :: ((get_border_chars b).vertical :: List.replicate (k + 1) ' ' ++ text ++
              List.replicate (k + 1) ' ' ++ [(get_border_chars b).vertical]) ++
          NL :: ((get_border_chars b).bottom_left ::
              List.replicate (text.length + 2 * k + 2) (get_border_chars b).horizontal ++
              [(get_border_chars b).bottom_right]) ++
          [ESC, '[', '0', 'm'] ∧
      tw T text ("p-".toList ++ to_string k ++ ' ' :: btok) =
        tw T text (btok ++ ' ' :: ("p-".toList ++ to_string k)) ∧
      split NL (apply_border (List.replicate k ' ' ++ text ++ List.replicate k ' ')
          { border := b }) =
        [(get_border_chars b).top_left ::
            List.replicate (text.length + 2 * k + 2) (get_border_chars b).horizontal ++
            [(get_border_chars b).top_right],
         (get_border_chars b).vertical :: List.replicate (k + 1) ' ' ++ text ++
            List.replicate (k + 1) ' ' ++ [(get_border_chars b).vertical],
         (get_border_chars b).bottom_left ::
            List.replicate (text.length + 2 * k + 2) (get_border_chars b).horizontal ++
            [(get_border_chars b).bottom_right]] := by
  obtain ⟨e, hw, hf, ha, hm, hbo, hbn, hpv, hp0, hc⟩ := parse_border_padding btok b k hb hk
  have hlen : (List.replicate k ' ' ++ text ++ List.replicate k ' ').length + 2 =
      text.length + 2 * k + 2 := by
    simp only [List.length_append, List.length_replicate]
    omega
  have htop : box_top (get_border_chars b)
      (List.replicate k ' ' ++ text ++ List.replicate k ' ').length =
      (get_border_chars b).top_left ::
        List.replicate (text.length + 2 * k + 2) (get_border_chars b).horizontal ++
        [(get_border_chars b).top_right] := by
    unfold box_top
    rw [hlen]
  have hbot : box_bottom (get_border_chars b)
      (List.replicate k ' ' ++ text ++ List.replicate k ' ').length =
      (get_border_chars b).bottom_left ::
        List.replicate (text.length + 2 * k + 2) (get_border_chars b).horizontal ++
        [(get_border_chars b).bottom_right] := by
    unfold box_bottom
    rw [hlen]
  have hmid : box_middle (get_border_chars b)
      (List.replicate k ' ' ++ text ++ List.replicate k ' ') =
      (get_border_chars b).vertical :: List.replicate (k + 1) ' ' ++ text ++
        List.replicate (k + 1) ' ' ++ [(get_border_chars b).vertical] := by
    unfold box_middle
    simp [List.replicate_succ, replicate_space_cons]
  have hpad : NL ∉ List.replicate k ' ' ++ text ++ List.replicate k ' ' := by
    have hs : NL ≠ ' ' := by decide
    simp [hnl, hs]
  refine ⟨?_, ?_, ?_⟩
  · rw [tw_eq, render_box_padded T text _ hw hf ha hm (hbo ▸ hbn) hp0 hc, hbo, hpv]
    unfold box
    rw [htop, hmid, hbot]
    simp [reset_seq]
  · rw [tw_eq, tw_eq, e]
  · have hb' : ({ border := b } : StyleState).border ≠ BorderType.None := hbn
    rw [apply_border_eq _ _ hb']
    show split NL (box (get_border_chars b) _) = _
    rw [split_box b _ hpad, htop, hmid, hbot]

/-- C8 at `tw("Box", "border p-1")` on a terminal of 80 columns; the border cells are the
bytes held by the `char` fields of the Single border. -/
theorem tw_border_padding_witness :
    NL ∉ "Box".toList ∧ (1 ≤ 1 ∧ 1 ≤ 4) ∧ ("border".toList, BorderType.Single) ∈ border_table ∧
      tw 80 "Box".toList "border p-1".toList =
        ESC :: "[m".toList ++ bytes [0x8c, 0x80, 0x80, 0x80, 0x80, 0x80, 0x80, 0x80, 0x90] ++
          NL :: (bytes [0x82] ++ "  Box  ".toList ++ bytes [0x82]) ++
          NL :: bytes [0x94, 0x80, 0x80, 0x80, 0x80, 0x80, 0x80, 0x80, 0x98] ++
          ESC :: "[0m".toList :=
  ⟨by decide, by decide, by decide,
    (tw_border_padding 80 "Box".toList "border".toList BorderType.Single 1
      (by decide) (by decide) (by decide)).1⟩

end tw

/-! ## Chained calls and malformed widths -/

namespace tw

open Parser Renderer

/-- C9: full style replacement on chained calls. For every text and token strings `a` and
`b`, `Text(text).tw(a).tw(b).render()` equals `Text(text).tw(b).render()` and the style
held after the second call is `parse(b)`, so nothing set by `a` survives;
`Text("World").tw("bg-blue text-white").tw("p-2 border")` has no background and no text
colour and renders as a plain `ESC[m` box (its border cells are the bytes held by the
`char` fields of the Single border). -/
theorem tw_chain_replaces (T : Nat) (text a b : Str) :
    (((Text.new text).tw a).tw b).render T = ((Text.new text).tw b).render T ∧
      (((Text.new text).tw a).tw b).style = parse b ∧
      (((Text.new "World".toList).tw "bg-blue text-white".toList).tw
          "p-2 border".toList).style.has_bg_color = false ∧
      (((Text.new "World".toList).tw "bg-blue text-white".toList).tw
          "p-2 border".toList).style.has_text_color = false ∧
      (((Text.new "World".toList).tw "bg-blue text-white".toList).tw
          "p-2 border".toList).render 80 =
        ESC :: "[m".toList ++
          (bytes [0x8c] ++ List.replicate 11 (Char.ofNat 0x80) ++ bytes [0x90]) ++
          NL :: (bytes [0x82] ++ "   World   ".toList ++ bytes [0x82]) ++
          NL :: (bytes [0x94] ++ List.replicate 11 (Char.ofNat 0x80) ++ bytes [0x98]) ++
          ESC :: "[0m".toList ∧
      (((Text.new "Hello".toList).tw "bold".toList).tw []).style.modifiers = 0 :=
  ⟨rfl, rfl, by decide, by decide, by decide, by decide⟩

/-- C10, the code at malformed widths: `std::stoi` accepts a leading sign and ignores what
follows the digits, so `w-12abc` sets the width 12, `w-+7` sets 7 and `w--5` sets
65531 (`-5` cast to `uint16_t`), where a malformed width is specified to leave the state
unchanged; only a remainder on which `std::stoi` throws (as in `w-` and `w-abc`) leaves
the state unchanged. -/
theorem apply_token_malformed_width :
    apply_token "w-12abc".toList {} = { width := 12 } ∧
      apply_token "w--5".toList {} = { width := 65531 } ∧
      apply_token "w-+7".toList {} = { width := 7 } ∧
      apply_token "w-".toList {} = {} ∧
      apply_token "w-abc".toList {} = {} ∧
      (∀ (state : StyleState) (r : Str), r ≠ "full".toList → stoi r = none →
        apply_token ('w' :: '-' :: r) state = state) := by
  refine ⟨by decide, by decide, by decide, by decide, by decide, ?_⟩
  intro state r hr hs
  have hr' : ¬ r = ['f', 'u', 'l', 'l'] := hr
  simp [apply_token, padding_map, modifier_map, hr', hs]

/-- C10 at the remainder `abc`, on which `std::stoi` throws. -/
theorem apply_token_malformed_width_witness :
    "abc".toList ≠ "full".toList ∧ stoi "abc".toList = none ∧
      apply_token ('w' :: '-' :: "abc".toList) { text_color := Color.Red, width := 9 } =
        { text_color := Color.Red, width := 9 } :=
  ⟨by decide, by decide,
    apply_token_malformed_width.2.2.2.2.2 { text_color := Color.Red, width := 9 }
      "abc".toList (by decide) (by decide)⟩

end tw

/-! ## Numeric widths -/

namespace tw

open Parser Renderer

theorem digit_not_space (c : Char) (h : c.isDigit = true) :
    isspace c = false ∧ c ≠ '-' ∧ c ≠ '+' ∧ c ≠ ' ' ∧ c ≠ 'f' := by
  refine ⟨?_, ?_, ?_, ?_, ?_⟩
  · cases hs : isspace c with
    | false => rfl
    | true =>
      simp only [isspace, Bool.or_eq_true, decide_eq_true_eq] at hs
      rcases hs with ((((hs | hs) | hs) | hs) | hs) | hs <;> subst hs <;>
        exact absurd h (by decide)
  all_goals
    intro e
    subst e
    exact absurd h (by decide)

/-- On a non-empty string of digits `std::stoi` returns its value when that is an `int`
and throws otherwise. -/
theorem stoi_digits (d : Str) (hne : d ≠ []) (hd : ∀ c ∈ d, c.isDigit = true) :
    stoi d = if digits_value d ≤ 2147483647 then some (digits_value d : Int) else none := by
  cases d with
  | nil => exact absurd rfl hne
  | cons c cs =>
    obtain ⟨hsp, hm, hp, _, _⟩ := digit_not_space c (hd c (List.mem_cons_self _ _))
    have h1 : (c :: cs).dropWhile isspace = c :: cs := by
      simp [List.dropWhile_cons, hsp]
    have h2 : (c :: cs).takeWhile Char.isDigit = c :: cs :=
      List.takeWhile_eq_self_iff.mpr hd
    unfold stoi
    simp only [h1, List.head?_cons, Option.some.injEq, hm, hp, or_self, if_false, h2,
      decide_False, Bool.false_eq_true]
    have hnn : ¬ ((digits_value (c :: cs) : Int) < -2147483648) := by omega
    by_cases hle : digits_value (c :: cs) ≤ 2147483647
    · have hgt : ¬ ((2147483647 : Int) < (digits_value (c :: cs) : Int)) := by omega
      simp [hnn, hgt, hle]
    · have hgt : (2147483647 : Int) < (digits_value (c :: cs) : Int) := by omega
      simp [hgt, hle]

theorem to_uint16_natCast (n : Nat) : to_uint16 (n : Int) = n % 65536 := by
  unfold to_uint16
  have e : ((n : Int) % 65536) = ((n % 65536 : Nat) : Int) := by omega
  rw [e, Int.toNat_ofNat]

/-- The token `w-<digits>` applied to any state. -/
theorem apply_token_width_digits (d : Str) (hne : d ≠ []) (hd : ∀ c ∈ d, c.isDigit = true)
    (state : StyleState) :
    apply_token ('w' :: '-' :: d) state =
      if digits_value d ≤ 2147483647 then { state with width := digits_value d % 65536 }
      else state := by
  have hfull : ¬ d = ['f', 'u', 'l', 'l'] := by
    intro e
    have := hd 'f' (by simp [e])
    exact absurd this (by decide)
  simp only [apply_token, padding_map, modifier_map]
  by_cases hle : digits_value d ≤ 2147483647
  · simp [hfull, stoi_digits d hne hd, hle, to_uint16_natCast]
  · simp [hfull, stoi_digits d hne hd, hle]

theorem parse_w_digits (d : Str) (hne : d ≠ []) (hd : ∀ c ∈ d, c.isDigit = true) :
    parse ('w' :: '-' :: d) =
      if digits_value d ≤ 2147483647 then { width := digits_value d % 65536 } else {} := by
  have hsp : ' ' ∉ 'w' :: '-' :: d := by
    intro h
    simp only [List.mem_cons] at h
    rcases h with h | h | h
    · exact absurd h (by decide)
    · exact absurd h (by decide)
    · exact (digit_not_space ' ' (hd _ h)).2.2.2.1 rfl
  unfold parse
  rw [split_no_delim _ _ hsp, List.foldl_cons, List.foldl_nil,
    apply_token_width_digits d hne hd]

/-- C11 fails at `w-65536`: the digits denote 65536 and the explicit width parsed is 0. -/
theorem parse_width_digits_counterexample :
    ("65536".toList ≠ [] ∧ ∀ c ∈ "65536".toList, c.isDigit = true) ∧
      digits_value "65536".toList = 65536 ∧
      (parse "w-65536".toList).width = 0 ∧
      ¬ (parse "w-65536".toList).width = digits_value "65536".toList := by
  decide

/-- C11, amended: for every non-empty string `d` of decimal digits denoting `n`, if
`n ≤ 65535` then `Parser::parse("w-" + d)` has explicit width `n` and every other field
default; if `n ≤ 2147483647` the explicit width is `n` reduced modulo 65536 (the cast to
`uint16_t`); for a larger `n` `std::stoi` throws and the state stays default. -/
theorem parse_width_digits (d : Str) (hne : d ≠ []) (hd : ∀ c ∈ d, c.isDigit = true) :
    (digits_value d ≤ 65535 → parse ('w' :: '-' :: d) = { width := digits_value d }) ∧
      (digits_value d ≤ 2147483647 →
        parse ('w' :: '-' :: d) = { width := digits_value d % 65536 }) ∧
      (2147483647 < digits_value d → parse ('w' :: '-' :: d) = {}) := by
  have h := parse_w_digits d hne hd
  refine ⟨?_, ?_, ?_⟩
  · intro hle
    have h1 : digits_value d ≤ 2147483647 := by omega
    have h2 : digits_value d % 65536 = digits_value d := Nat.mod_eq_of_lt (by omega)
    rw [h, if_pos h1, h2]
  · intro hle
    rw [h, if_pos hle]
  · intro hgt
    rw [h, if_neg (by omega)]

/-- C11 amended, at `w-020`: the width parsed is 20. -/
theorem parse_width_digits_witness :
    "020".toList ≠ [] ∧ (∀ c ∈ "020".toList, c.isDigit = true) ∧
      digits_value "020".toList ≤ 65535 ∧
      parse ('w' :: '-' :: "020".toList) = { width := 20 } :=
  ⟨by decide, by decide, by decide,
    (parse_width_digits "020".toList (by decide) (by decide)).1 (by decide)⟩

end tw

/-! ## Bold red text, and the glyph sets -/

namespace tw

open Parser Renderer

/-- C12 fails already at the empty text: with Bold and text colour Red the output is not
`ESC[1;30m` followed by `ESC[0m`. -/
theorem bold_red_counterexample :
    ¬ apply_ansi_styling [] { modifiers := Modifier.Bold.val, text_color := Color.Red } =
      ESC :: "[1;30m".toList ++ [] ++ ESC :: "[0m".toList := by
  decide

/-- C12, amended: for every text, rendering it with the style that has only the Bold
modifier and text colour Red produces the code list `1;31` (Red has colour index 1),
modifier code before colour code and no semicolon before `m`: the output is `ESC[1;31m`,
the text, `ESC[0m`, from the ANSI stage and from the whole pipeline. -/
theorem bold_red_codes (T : Nat) (text : Str) :
    ansi_codes { modifiers := Modifier.Bold.val, text_color := Color.Red } =
        ["1".toList, "31".toList] ∧
      apply_ansi_styling text { modifiers := Modifier.Bold.val, text_color := Color.Red } =
        ESC :: "[1;31m".toList ++ text ++ ESC :: "[0m".toList ∧
      render T text { modifiers := Modifier.Bold.val, text_color := Color.Red } =
        ESC :: "[1;31m".toList ++ text ++ ESC :: "[0m".toList := by
  refine ⟨by decide, rfl, ?_⟩
  rw [render_plain T _ _ rfl rfl rfl rfl rfl rfl]
  rfl

/-- The bytes kept by the `char` fields make Single and Double collide: the top-right
corner of Single is the horizontal cell of Double (`90`), and the bottom-left corner of
Single is the top-left corner of Double (`94`), although the source writes different
glyphs. -/
theorem single_double_stored_bytes :
    (get_border_chars BorderType.Single).top_right =
        (get_border_chars BorderType.Double).horizontal ∧
      (get_border_chars BorderType.Single).bottom_left =
        (get_border_chars BorderType.Double).top_left ∧
      glyph_set BorderType.Single = bytes [0x8c, 0x90, 0x94, 0x98, 0x80, 0x82] ∧
      glyph_set BorderType.Double = bytes [0x94, 0x97, 0x9a, 0x9d, 0x90, 0x91] ∧
      glyph_set BorderType.Rounded = bytes [0xad, 0xae, 0xb0, 0xaf, 0x80, 0x82] := by
  decide

end tw

/-! ## The width stage at small targets and with both width settings -/

namespace tw

open Parser Renderer

/-- C14, the code at a target below 3: for an explicit width `W` of 1 or 2 and a longer
text (shorter than `2 ^ 63` characters) `target_width - 3` wraps on `size_t`, `substr`
keeps the whole text and the result is the text followed by `...`, of length
`len(text) + 3`, not `W`; the text `Boxy` at width 2 gives `Boxy...`. -/
theorem apply_width_short_target (T : Nat) (text : Str) (style : StyleState)
    (hf : style.width_full = false) (h1 : 1 ≤ style.width) (h3 : style.width < 3)
    (hn : style.width < text.length) (hlen : text.length < 2 ^ 63) :
    apply_width T text style = text ++ "...".toList ∧
      (apply_width T text style).length = text.length + 3 ∧
      (apply_width T text style).length ≠ style.width ∧
      apply_width 80 "Boxy".toList { width := 2 } = "Boxy...".toList := by
  have h0 : ¬ style.width = 0 := by omega
  have hle : ¬ text.length ≤ style.width := by omega
  have hmod : (style.width + 2 ^ 64 - 3) % 2 ^ 64 = style.width + 2 ^ 64 - 3 :=
    Nat.mod_eq_of_lt (by omega)
  have htake : text.take (style.width + 2 ^ 64 - 3) = text :=
    List.take_of_length_le (by omega)
  have e : apply_width T text style = text ++ "...".toList := by
    unfold apply_width
    simp only [h0, hf, hle, false_and, if_false, Bool.false_eq_true]
    rw [hmod, htake]
  refine ⟨e, ?_, ?_, by decide⟩
  · rw [e]
    simp
  · rw [e]
    simp
    omega

/-- C14 at the text `Boxy` and width 2: the result has 7 characters. -/
theorem apply_width_short_target_witness :
    (apply_width 80 "Boxy".toList { width := 2 }).length = "Boxy".toList.length + 3 :=
  (apply_width_short_target 80 "Boxy".toList { width := 2 } rfl (by decide) (by decide)
    (by decide) (by decide)).2.1

/-- C17 fails at width 4 with the full-width flag on a terminal of 10 columns: the text
`ab` is padded to 10 characters, not to 4, so the target was not the explicit width. -/
theorem width_full_counterexample :
    parse "w-4 w-full".toList = { width := 4, width_full := true } ∧
      apply_width 10 "ab".toList { width := 4, width_full := true } =
        "ab".toList ++ List.replicate 8 ' ' ∧
      ¬ apply_width 10 "ab".toList { width := 4, width_full := true } =
        apply_width 10 "ab".toList { width := 4, width_full := false } := by
  decide

/-- C17, amended: the full-width flag is applied last. For every text and every style that
has the full-width flag set, whatever its explicit width (for example the style parsed
from `w-20 w-full`), only one of the two applies and the width stage resolves its target
to the terminal width, not to the explicit width: the output is that of the same style
without an explicit width, the text padded to the terminal width or truncated for it. -/
theorem width_full_overrides (T : Nat) (text : Str) (style : StyleState)
    (hf : style.width_full = true) :
    apply_width T text style = apply_width T text { style with width := 0 } ∧
      apply_width T text style =
        (if text.length ≤ T then text ++ List.replicate (T - text.length) ' '
          else text.take ((T + 2 ^ 64 - 3) % 2 ^ 64) ++ "...".toList) ∧
      parse "w-20 w-full".toList = { width := 20, width_full := true } := by
  refine ⟨?_, ?_, by decide⟩
  · simp [apply_width, hf]
  · simp [apply_width, hf]

/-- C17 amended, at the style parsed from `w-20 w-full` on a terminal of 30 columns. -/
theorem width_full_overrides_witness :
    (parse "w-20 w-full".toList).width_full = true ∧
      apply_width 30 "abc".toList (parse "w-20 w-full".toList) =
        "abc".toList ++ List.replicate 27 ' ' :=
  ⟨by decide, by
    have h := (width_full_overrides 30 "abc".toList (parse "w-20 w-full".toList)
      (by decide)).2.1
    rw [h]
    decide⟩

end tw

/-! ## The alignment stage -/

namespace tw

open Parser Renderer

/-- A text with a newline passes the alignment stage unchanged. -/
theorem apply_alignment_newline (T : Nat) (x : Str) (style : StyleState) (h : NL ∈ x) :
    apply_alignment T x style = x := by
  simp [apply_alignment, h]

theorem newline_mem_padding (x : Str) (style : StyleState) (h : NL ∈ x) :
    NL ∈ apply_padding x style := by
  unfold apply_padding
  split
  · exact h
  · simp [h]

theorem newline_mem_border (x : Str) (style : StyleState)
    (h : style.border ≠ BorderType.None ∨ NL ∈ x) : NL ∈ apply_border x style := by
  by_cases hb : style.border = BorderType.None
  · have hx : NL ∈ x := h.resolve_left (fun hn => hn hb)
    simp [apply_border, StyleState.has_border, hb, hx]
  · rw [apply_border_eq x style hb]
    simp [box]

/-- The pipeline does not look at the alignment when the text reaching the alignment stage
has a newline. -/
theorem render_alignment_eq (T : Nat) (text : Str) (style : StyleState) (a : Alignment)
    (h : style.border ≠ BorderType.None ∨ NL ∈ apply_width T text style) :
    render T text { style with alignment := a } = render T text style := by
  have hnl : NL ∈ apply_border (apply_padding (apply_width T text style) style) style :=
    newline_mem_border _ _ (h.imp id (newline_mem_padding _ style))
  have e1 : apply_width T text { style with alignment := a } = apply_width T text style := rfl
  have e2 : ∀ x, apply_padding x { style with alignment := a } = apply_padding x style :=
    fun _ => rfl
  have e3 : ∀ x, apply_border x { style with alignment := a } = apply_border x style :=
    fun _ => rfl
  have e5 : ∀ x, apply_margin x { style with alignment := a } = apply_margin x style :=
    fun _ => rfl
  have e6 : ∀ x, apply_ansi_styling x { style with alignment := a } =
      apply_ansi_styling x style := fun _ => rfl
  unfold render
  simp only [e1, e2, e3, e5, e6]
  rw [apply_alignment_newline T _ _ hnl, apply_alignment_newline T _ _ hnl]

/-- C15 fails for a text with a newline that the width stage cuts off: `a`, newline,
`bcdef` at width 4 is truncated to `a...`, and the pipeline then right-aligns it. -/
theorem render_alignment_counterexample :
    NL ∈ 'a' :: NL :: "bcdef".toList ∧
      apply_width 10 ('a' :: NL :: "bcdef".toList) { width := 4 } = "a...".toList ∧
      render 10 ('a' :: NL :: "bcdef".toList) { width := 4, alignment := Alignment.Left } =
        ESC :: "[ma...".toList ++ ESC :: "[0m".toList ∧
      render 10 ('a' :: NL :: "bcdef".toList) { width := 4, alignment := Alignment.Right } =
        ESC :: "[m      a...".toList ++ ESC :: "[0m".toList ∧
      ¬ render 10 ('a' :: NL :: "bcdef".toList) { width := 4, alignment := Alignment.Right } =
        render 10 ('a' :: NL :: "bcdef".toList) { width := 4, alignment := Alignment.Left } := by
  decide

/-- C15, amended: bordered or multi-line content is never re-aligned. For every text,
terminal width and style whose border is not None, `Renderer::render` gives the same
output whatever the alignment (all other fields equal); likewise for any text that still
contains a newline after the width stage, in particular a text with a newline and a style
without width setting, or a text with a newline that fits the explicit width; and
`tw(t, "border center") = tw(t, "border")`. -/
theorem render_alignment_irrelevant (T : Nat) (text : Str) (style : StyleState)
    (a : Alignment) :
    (style.border ≠ BorderType.None →
        render T text { style with alignment := a } = render T text style) ∧
      (NL ∈ apply_width T text style →
        render T text { style with alignment := a } = render T text style) ∧
      (NL ∈ text → style.width = 0 → style.width_full = false →
        render T text { style with alignment := a } = render T text style) ∧
      (NL ∈ text → style.width_full = false → text.length ≤ style.width →
        render T text { style with alignment := a } = render T text style) ∧
      tw T text "border center".toList = tw T text "border".toList := by
  refine ⟨fun hb => render_alignment_eq T text style a (Or.inl hb),
    fun hn => render_alignment_eq T text style a (Or.inr hn), ?_, ?_, ?_⟩
  · intro hn hw hf
    apply render_alignment_eq T text style a
    right
    simp [apply_width, hw, hf, hn]
  · intro hn hf hle
    apply render_alignment_eq T text style a
    right
    rw [apply_width_pad T text style hf hle]
    simp [hn]
  · have h1 : parse "border center".toList =
        { (parse "border".toList) with alignment := Alignment.Center } := by decide
    rw [tw_eq, tw_eq, h1]
    exact render_alignment_eq T text _ _ (Or.inl (by decide))

/-- C15 amended, at a Double border with alignment Right, and at a two-line text. -/
theorem render_alignment_irrelevant_witness :
    ({ border := BorderType.Double } : StyleState).border ≠ BorderType.None ∧
      render 80 "hi".toList { border := BorderType.Double, alignment := Alignment.Right } =
        render 80 "hi".toList { border := BorderType.Double } ∧
      NL ∈ 'a' :: NL :: "bcdef".toList ∧
      render 80 ('a' :: NL :: "bcdef".toList) { alignment := Alignment.Center } =
        render 80 ('a' :: NL :: "bcdef".toList) {} :=
  ⟨by decide,
    (render_alignment_irrelevant 80 "hi".toList { border := BorderType.Double }
      Alignment.Right).1 (by decide),
    by decide,
    (render_alignment_irrelevant 80 ('a' :: NL :: "bcdef".toList) {}
      Alignment.Center).2.2.1 (by decide) rfl rfl⟩

/-- C16: the alignment stage with terminal width `T`. For a text without a newline of
length `n`: if `n ≥ T` the text is returned unchanged; otherwise Center returns
`(T - n) / 2` spaces followed by the text and Right returns `T - n` spaces followed by the
text, of length exactly `T`; Left returns the text; the text itself is never altered (it
is the end of the output). -/
theorem apply_alignment_spec (T : Nat) (text : Str) (style : StyleState) (hnl : NL ∉ text) :
    (T ≤ text.length → apply_alignment T text style = text) ∧
      (text.length < T → style.alignment = Alignment.Center →
        apply_alignment T text style =
          List.replicate ((T - text.length) / 2) ' ' ++ text) ∧
      (text.length < T → style.alignment = Alignment.Right →
        apply_alignment T text style = List.replicate (T - text.length) ' ' ++ text ∧
        (apply_alignment T text style).length = T) ∧
      (style.alignment = Alignment.Left → apply_alignment T text style = text) ∧
      text <:+ apply_alignment T text style := by
  refine ⟨?_, ?_, ?_, ?_, ?_⟩
  · intro h
    simp [apply_alignment, h]
  · intro h ha
    have hn : ¬ T ≤ text.length := by omega
    simp [apply_alignment, ha, hnl, hn]
  · intro h ha
    have hn : ¬ T ≤ text.length := by omega
    have e : apply_alignment T text style = List.replicate (T - text.length) ' ' ++ text := by
      simp [apply_alignment, ha, hnl, hn]
    refine ⟨e, ?_⟩
    rw [e]
    simp only [List.length_append, List.length_replicate]
    omega
  · intro ha
    simp [apply_alignment, ha]
  · unfold apply_alignment
    split
    · exact List.suffix_refl _
    · simp only []
      split
      · exact List.suffix_refl _
      · exact List.suffix_append _ _

/-- C16 at the text `abc` on a terminal of 10 columns: centred and right-aligned. -/
theorem apply_alignment_spec_witness :
    NL ∉ "abc".toList ∧
      apply_alignment 10 "abc".toList { alignment := Alignment.Center } = "   abc".toList ∧
      apply_alignment 10 "abc".toList { alignment := Alignment.Right } =
        "       abc".toList :=
  ⟨by decide,
    (apply_alignment_spec 10 "abc".toList { alignment := Alignment.Center } (by decide)).2.1
      (by decide) rfl,
    ((apply_alignment_spec 10 "abc".toList { alignment := Alignment.Right }
      (by decide)).2.2.1 (by decide) rfl).1⟩

end tw

/-! ## Frame properties of `apply_token` -/

namespace tw

open Parser Renderer

/-- Every attribute outside the category of the token keeps its value. -/
theorem apply_token_frame (t : Str) (state : StyleState) (f : Field)
    (h : token_category t ≠ some f) : agree_on f (apply_token t state) state := by
  unfold token_category at h
  unfold apply_token
  by_cases h1 : t.take 5 = "text-".toList
  · simp only [h1, if_true] at h ⊢
    cases color_map (t.drop 5) <;> cases f <;> first | rfl | exact absurd rfl h
  simp only [h1, if_false] at h ⊢
  by_cases h2 : t.take 3 = "bg-".toList
  · simp only [h2, if_true] at h ⊢
    cases color_map (t.drop 3) <;> cases f <;> first | rfl | exact absurd rfl h
  simp only [h2, if_false] at h ⊢
  cases h3 : padding_map t with
  | some p =>
    simp only [h3, Option.isSome_some, if_true] at h
    cases f <;> first | rfl | exact absurd rfl h
  | none =>
    simp only [h3, Option.isSome_none, Bool.false_eq_true, if_false] at h
    cases h4 : modifier_map t with
    | some m =>
      simp only [h4, Option.isSome_some, if_true] at h
      cases f <;> first | rfl | exact absurd rfl h
    | none =>
      simp only [h4, Option.isSome_none, Bool.false_eq_true, if_false] at h
      by_cases h5 : t = "border".toList
      · subst h5
        cases f <;> first | rfl | exact absurd (by decide) h
      by_cases h6 : t = "border-double".toList
      · subst h6
        cases f <;> first | rfl | exact absurd (by decide) h
      by_cases h7 : t = "border-rounded".toList
      · subst h7
        cases f <;> first | rfl | exact absurd (by decide) h
      by_cases h8 : t = "left".toList
      · subst h8
        cases f <;> first | rfl | exact absurd (by decide) h
      by_cases h9 : t = "center".toList
      · subst h9
        cases f <;> first | rfl | exact absurd (by decide) h
      by_cases h10 : t = "right".toList
      · subst h10
        cases f <;> first | rfl | exact absurd (by decide) h
      by_cases h11 : t = "w-full".toList
      · subst h11
        cases f <;> first | rfl | exact absurd (by decide) h
      simp only [h5, h6, h7, h8, h9, h10, h11, if_false, or_self] at h ⊢
      by_cases h12 : t.take 2 = "w-".toList
      · simp only [h12, if_true] at h ⊢
        cases stoi (t.drop 2) <;> cases f <;> first | rfl | exact absurd rfl h
      · simp only [h12, if_false]
        cases f <;> rfl

theorem token_category_ne_margin (t : Str) : token_category t ≠ some Field.margin := by
  unfold token_category
  repeat' split
  all_goals simp

theorem apply_token_margin (t : Str) (state : StyleState) :
    (apply_token t state).margin = state.margin :=
  apply_token_frame t state Field.margin (token_category_ne_margin t)

theorem foldl_margin (ts : List Str) :
    ∀ state : StyleState,
      (ts.foldl (fun state token => apply_token token state) state).margin = state.margin := by
  induction ts with
  | nil => intro state; rfl
  | cons t ts ih =>
    intro state
    rw [List.foldl_cons, ih, apply_token_margin]

theorem parse_margin (s : Str) : (parse s).margin = Margin.M0 := by
  unfold parse
  rw [foldl_margin]

/-- A token only ever adds bits to `modifiers`. -/
theorem apply_token_modifiers (t : Str) (state : StyleState) :
    ∃ k : Nat, (apply_token t state).modifiers = state.modifiers ||| k := by
  by_cases hc : token_category t = some Field.modifiers
  · unfold token_category at hc
    unfold apply_token
    by_cases h1 : t.take 5 = "text-".toList
    · simp only [h1, if_true] at hc
      cases hc
    simp only [h1, if_false] at hc ⊢
    by_cases h2 : t.take 3 = "bg-".toList
    · simp only [h2, if_true] at hc
      cases hc
    simp only [h2, if_false] at hc ⊢
    cases h3 : padding_map t with
    | some p =>
      simp only [h3, Option.isSome_some, if_true] at hc
      cases hc
    | none =>
      cases h4 : modifier_map t with
      | some m => exact ⟨m.val, rfl⟩
      | none =>
        simp only [h3, h4, Option.isSome_none, Bool.false_eq_true, if_false] at hc
        repeat' split at hc
        all_goals cases hc
  · exact ⟨0, by
      rw [Nat.or_zero]
      exact apply_token_frame t state Field.modifiers hc⟩

/-- C18: margin is unreachable through the token language. For every token string `s`,
`Parser::parse(s).margin` is `M0`, so the margin stage adds no newline to `tw(text, s)`
(it returns its input, and the pipeline is the other five stages); the token `m-1` is an
unknown token, it leaves every state unchanged, and `tw(text, "m-1 " + s) = tw(text, s)`. -/
theorem margin_unreachable (T : Nat) (text s : Str) :
    (parse s).margin = Margin.M0 ∧
      (∀ x : Str, apply_margin x (parse s) = x) ∧
      tw T text s =
        apply_ansi_styling
          (apply_alignment T
            (apply_border (apply_padding (apply_width T text (parse s)) (parse s)) (parse s))
            (parse s))
          (parse s) ∧
      unknown_token "m-1".toList ∧
      (∀ state : StyleState, apply_token "m-1".toList state = state) ∧
      parse ("m-1 ".toList ++ s) = parse s ∧
      tw T text ("m-1 ".toList ++ s) = tw T text s := by
  have hm : ∀ x : Str, apply_margin x (parse s) = x := by
    intro x
    simp [apply_margin, parse_margin s]
  have hu : unknown_token "m-1".toList := by decide
  have hp : parse ("m-1 ".toList ++ s) = parse s := by
    have e : "m-1 ".toList ++ s = "m-1".toList ++ ' ' :: s := rfl
    have e0 : parse "m-1".toList = {} := by decide
    rw [e, parse_append, e0]
    rfl
  refine ⟨parse_margin s, hm, ?_, hu, fun state => apply_token_unknown _ state hu, hp, ?_⟩
  · rw [tw_eq]
    unfold render
    simp only [hm]
  · rw [tw_eq, tw_eq, hp]

/-- C19: each token touches at most one attribute. For every token and every state,
`Parser::apply_token` leaves unchanged every attribute other than the one of the token's
category (text_color, bg_color, padding, modifiers, border, alignment, width_full or
width), margin included, and every modifier flag that was set stays set. -/
theorem apply_token_one_attribute (token : Str) (state : StyleState) :
    (∀ f : Field, token_category token ≠ some f →
        agree_on f (apply_token token state) state) ∧
      (∀ m : Modifier, state.has_modifier m = true →
        (apply_token token state).has_modifier m = true) := by
  refine ⟨fun f h => apply_token_frame token state f h, ?_⟩
  intro m hm
  obtain ⟨k, hk⟩ := apply_token_modifiers token state
  simp only [StyleState.has_modifier, decide_eq_true_eq] at hm ⊢
  rw [hk, Nat.and_distrib_right]
  intro h0
  exact hm ((or_eq_zero_iff _ _).mp h0).1

/-- C19 at the token `bold` on a state with text colour Red and Underline set: the text
colour is untouched and Underline stays set. -/
theorem apply_token_one_attribute_witness :
    token_category "bold".toList ≠ some Field.text_color ∧
      agree_on Field.text_color
        (apply_token "bold".toList { text_color := Color.Red, modifiers := 4 })
        { text_color := Color.Red, modifiers := 4 } ∧
      (apply_token "bold".toList { text_color := Color.Red, modifiers := 4 }).has_modifier
        Modifier.Underline = true :=
  ⟨by decide,
    (apply_token_one_attribute "bold".toList { text_color := Color.Red, modifiers := 4 }).1
      Field.text_color (by decide),
    (apply_token_one_attribute "bold".toList { text_color := Color.Red, modifiers := 4 }).2
      Modifier.Underline (by decide)⟩

end tw
